import Mathlib

/-!
Verification development for the UCI options subsystem (`ucioption.cpp`)
of a Stockfish-derived chess engine.

The C++ code is shallowly embedded:
* `Opt` mirrors `UCI::Option` (fields `type`, `defaultValue`, `currentValue`,
  `min`, `max`, plus `hasOnChange`, a boolean recording whether an
  `on_change` callback is bound, and `idx` for the insertion index).
* `stoi` models `std::stoi` (base 10): skip leading whitespace, optional
  sign, at least one decimal digit, trailing characters ignored; `none`
  models a thrown exception (`std::invalid_argument` when no digits,
  `std::out_of_range` when the value does not fit in a 32-bit `int`).
* `assign` mirrors `Option::operator=(const string&)`.  Its result is
  `AssignResult.ok st accepted fired` for a normal return (with the new
  object state, whether the validation accepted the input, and whether the
  `on_change` callback was invoked), or `AssignResult.exn` when `stoi`
  throws and the exception propagates out of `operator=` — in that case the
  C++ object is left unmodified and no callback runs, but the call does not
  return normally.
* `cilLess` mirrors `CaseInsensitiveLess`, `mapInsert`/`mapFind` mirror the
  `std::map<string, Option, CaseInsensitiveLess>` kept as a list sorted by
  `cilLess` with unique keys up to case-insensitive equivalence.
* `registerOpt` mirrors `Option::operator<<` (copy all fields, stamp `idx`
  from the monotone counter); the static counter `insert_order` is zero at
  process start, so a fresh registry is built from counter value 0.
* `catalogEntries`/`initRegistry` mirror `UCI::init`, parameterised by the
  environment inputs `hw` (the `std::thread::hardware_concurrency()`
  result) and `is64` (`Is64Bit`).
* `printOptions` mirrors `operator<<(std::ostream&, const OptionsMap&)`.
-/

/-- Embedding of `UCI::Option`: type tag, default/current value texts,
spin bounds, presence of an `on_change` callback, insertion index. -/
structure Opt where
  type : String
  defaultValue : String
  currentValue : String
  min : Int
  max : Int
  hasOnChange : Bool
  idx : Nat
deriving DecidableEq, Repr

/-- C `isspace` on the default locale, as consumed by `strtol` inside
`std::stoi`: space, tab, newline, vertical tab, form feed, carriage return. -/
def isSpaceC (c : Char) : Bool :=
  c = ' ' || c = Char.ofNat 9 || c = Char.ofNat 10 || c = Char.ofNat 11 ||
  c = Char.ofNat 12 || c = Char.ofNat 13

/-- Numeric value of a list of decimal digit characters (most significant first). -/
def digitsVal (ds : List Char) : Nat :=
  ds.foldl (fun a c => a * 10 + (c.toNat - 48)) 0

/-- Embedding of `std::stoi(s)` in base 10: skip leading whitespace, read an
optional sign and then a non-empty run of decimal digits, ignoring the rest
of the string.  Returns `none` when `std::stoi` would throw: no digits
(`std::invalid_argument`) or a value outside the 32-bit `int` range
(`std::out_of_range`). -/
def stoi (s : String) : Option Int :=
  let cs := s.data.dropWhile isSpaceC
  let signed : Int × List Char :=
    match cs with
    | '-' :: t => (-1, t)
    | '+' :: t => (1, t)
    | _ => (1, cs)
  let ds := signed.2.takeWhile (fun c => c.isDigit)
  if ds = [] then none
  else
    let v : Int := signed.1 * (digitsVal ds : Int)
    if v < -2147483648 ∨ v > 2147483647 then none else some v

/-- Result of `Option::operator=`: either a normal return carrying the new
object state, whether validation accepted the text, and whether `on_change`
was invoked — or `exn`, a `stoi` exception propagating out of the call
(object unmodified, callback not invoked, no normal return). -/
inductive AssignResult where
  | ok (st : Opt) (accepted : Bool) (fired : Bool) : AssignResult
  | exn : AssignResult
deriving DecidableEq, Repr

/-- Embedding of `Option::operator=(const string& v)`: validation in source
order (empty text for non-button; check text not "true"/"false"; spin text
out of `[min, max]`), then mutation of `currentValue` for non-button kinds
and invocation of `on_change` when bound. -/
def assign (o : Opt) (v : String) : AssignResult :=
  if o.type ≠ "button" ∧ v = "" then .ok o false false
  else if o.type = "check" ∧ v ≠ "true" ∧ v ≠ "false" then .ok o false false
  else if o.type = "spin" then
    match stoi v with
    | none => .exn
    | some i =>
      if i < o.min ∨ i > o.max then .ok o false false
      else .ok { o with currentValue := v } true o.hasOnChange
  else
    .ok (if o.type ≠ "button" then { o with currentValue := v } else o)
      true o.hasOnChange

/-- Embedding of `Option::operator int()`: `stoi(currentValue)` for spin,
`currentValue == "true"` for check; `none` models the `assert` failing on
any other kind. -/
def readInt (o : Opt) : Option Int :=
  if o.type = "spin" then stoi o.currentValue
  else if o.type = "check" then some (if o.currentValue = "true" then 1 else 0)
  else none

/-- Embedding of `Option::Option(const char* v, OnChange f)` — a "string" option. -/
def optText (v : String) (f : Bool) : Opt :=
  ⟨"string", v, v, 0, 0, f, 0⟩

/-- Embedding of `Option::Option(bool v, OnChange f)` — a "check" option. -/
def optCheck (b : Bool) (f : Bool) : Opt :=
  ⟨"check", if b then "true" else "false", if b then "true" else "false", 0, 0, f, 0⟩

/-- Embedding of `Option::Option(OnChange f)` — a "button" option. -/
def optButton (f : Bool) : Opt :=
  ⟨"button", "", "", 0, 0, f, 0⟩

/-- Embedding of `Option::Option(int v, int minv, int maxv, OnChange f)` — a "spin"
option; `defaultValue = currentValue = std::to_string(v)`. -/
def optSpin (v minv maxv : Int) (f : Bool) : Opt :=
  ⟨"spin", toString v, toString v, minv, maxv, f, 0⟩

/-- The effect of `tolower` on the byte of a character, ASCII fold: fold A–Z to a–z. -/
def tol (c : Char) : Nat :=
  if 65 ≤ c.toNat ∧ c.toNat ≤ 90 then c.toNat + 32 else c.toNat

/-- Embedding of `std::lexicographical_compare(first1, last1, first2, last2, comp)`. -/
def lexCmp (lt : Char → Char → Bool) : List Char → List Char → Bool
  | [], [] => false
  | [], _ :: _ => true
  | _ :: _, [] => false
  | a :: as, b :: bs =>
    if lt a b then true else if lt b a then false else lexCmp lt as bs

/-- Embedding of `CaseInsensitiveLess::operator()`. -/
def cilLess (s1 s2 : String) : Bool :=
  lexCmp (fun c1 c2 => tol c1 < tol c2) s1.data s2.data

/-- Key equivalence induced by the map's strict weak order `cilLess`. -/
def cilEquiv (a b : String) : Bool :=
  !cilLess a b && !cilLess b a

/-- Embedding of `std::map::operator[]` followed by `Option::operator<<`: insert keeping
the list sorted by `cilLess`; an equivalent existing key keeps its stored
spelling and its mapped value is overwritten. -/
def mapInsert : List (String × Opt) → String → Opt → List (String × Opt)
  | [], k, v => [(k, v)]
  | (k0, v0) :: t, k, v =>
    if cilLess k k0 then (k, v) :: (k0, v0) :: t
    else if cilLess k0 k then (k0, v0) :: mapInsert t k v
    else (k0, v) :: t

/-- Embedding of `std::map::find` (and `count`) on the case-insensitive map: first entry whose
key is `cilEquiv` to the query (keys are unique up to `cilEquiv`). -/
def mapFind : List (String × Opt) → String → Option Opt
  | [], _ => none
  | (k, v) :: t, key => if cilEquiv key k then some v else mapFind t key

/-- Registry state: the map contents plus the static `insert_order` counter
used by `Option::operator<<` (zero at process start). -/
structure RegState where
  m : List (String × Opt)
  counter : Nat
deriving Repr

/-- Registration `o[name] << opt`: copy the freshly constructed option into the map slot
and stamp `idx` from the monotone counter (`Option::operator<<`). -/
def registerOpt (st : RegState) (name : String) (o : Opt) : RegState :=
  ⟨mapInsert st.m name { o with idx := st.counter }, st.counter + 1⟩

/-- The literal option table of `UCI::init`, in source order.  `hw` is the
`std::thread::hardware_concurrency()` result (0 when undeterminable) and
`is64` is `Is64Bit`. -/
def catalogEntries (hw : Nat) (is64 : Bool) : List (String × Opt) :=
  let maxHashMB : Int := if is64 then 1024 * 1024 else 2048
  let n : Nat := if hw = 0 then 1 else hw
  [("Tactical Mode", optCheck false false),
   ("Debug Log File", optText "" true),
   ("Contempt", optSpin 0 (-100) 100 false),
   ("Threads", optSpin (Int.ofNat n) 1 512 true),
   ("Hash", optSpin 16 1 maxHashMB true),
   ("Clear Hash", optButton true),
   ("Ponder", optCheck false false),
   ("Material(mg)", optSpin 100 0 300 true),
   ("Material(eg)", optSpin 100 0 300 true),
   ("Imbalance(mg)", optSpin 100 0 300 true),
   ("Imbalance(eg)", optSpin 100 0 300 true),
   ("PawnStructure(mg)", optSpin 100 0 300 true),
   ("PawnStructure(eg)", optSpin 100 0 300 true),
   ("Mobility(mg)", optSpin 100 0 300 true),
   ("Mobility(eg)", optSpin 100 0 300 true),
   ("PassedPawns(mg)", optSpin 100 0 300 true),
   ("PassedPawns(eg)", optSpin 100 0 300 true),
   ("KingSafety(mg)", optSpin 100 0 300 true),
   ("KingSafety(eg)", optSpin 100 0 300 true),
   ("Threats(mg)", optSpin 100 0 300 true),
   ("Threats(eg)", optSpin 100 0 300 true),
   ("Space", optSpin 100 0 300 true),
   ("Razoring", optCheck true false),
   ("Futility", optCheck true false),
   ("NullMove", optCheck true false),
   ("ProbCut", optCheck true false),
   ("Pruning", optCheck true false),
   ("LMR", optCheck true false),
   ("MaxLMR", optSpin 10 0 20 false),
   ("MultiPV", optSpin 1 1 500 false),
   ("Skill Level", optSpin 20 0 20 false),
   ("Move Overhead", optSpin 30 0 5000 false),
   ("Minimum Thinking Time", optSpin 20 0 5000 false),
   ("Large Pages", optCheck true true),
   ("Slow Mover", optSpin 89 10 1000 false),
   ("nodestime", optSpin 0 0 10000 false),
   ("UCI_Chess960", optCheck false false),
   ("SyzygyPath", optText "<empty>" true),
   ("SyzygyProbeDepth", optSpin 1 1 100 false),
   ("Syzygy50MoveRule", optCheck true false),
   ("SyzygyProbeLimit", optSpin 6 0 6 false)]

/-- Embedding of `UCI::init(Options)` run at process start: fold the catalog into an
empty registry with the static insertion counter at 0. -/
def initRegistry (hw : Nat) (is64 : Bool) : RegState :=
  (catalogEntries hw is64).foldl (fun st p => registerOpt st p.1 p.2) ⟨[], 0⟩

/-- The catalog's option names, in literal source order. -/
def catalogNames : List String :=
  (catalogEntries 1 true).map Prod.fst

/-- One output line of `operator<<(std::ostream&, const OptionsMap&)` for a
named option (each line is newline-prefixed by the source). -/
def optLine (name : String) (o : Opt) : String :=
  "\noption name " ++ name ++ " type " ++ o.type ++
  (if o.type ≠ "button" then " default " ++ o.defaultValue else "") ++
  (if o.type = "spin" then " min " ++ toString o.min ++ " max " ++ toString o.max else "")

/-- The inner loop of the registry printer: first map entry (in map order)
whose `idx` equals `j`. -/
def findByIdx (m : List (String × Opt)) (j : Nat) : Option (String × Opt) :=
  m.find? (fun p => p.2.idx == j)

/-- Embedding of `operator<<(std::ostream&, const OptionsMap&)`: for each
`idx` from 0 to `size-1`, print the entry carrying that `idx` (if any). -/
def printOptions (m : List (String × Opt)) : String :=
  (List.range m.length).foldl
    (fun acc j =>
      match findByIdx m j with
      | some p => acc ++ optLine p.1 p.2
      | none => acc) ""

/-- The spec's Spin invariant as a boolean check: a spin option has
`min ≤ max` and a `currentValue` parsing (as `stoi` does) to a value in
`[min, max]`. -/
def spinInvB (o : Opt) : Bool :=
  o.type ≠ "spin" ||
  (decide (o.min ≤ o.max) &&
    match stoi o.currentValue with
    | some k => decide (o.min ≤ k ∧ k ≤ o.max)
    | none => false)

/-- Lexicographic strict comparison of byte lists, the specialisation of
`lexCmp` once each character has been folded by `tol`. -/
def lexLtN : List Nat → List Nat → Bool
  | [], [] => false
  | [], _ :: _ => true
  | _ :: _, [] => false
  | a :: as, b :: bs =>
    if a < b then true else if b < a then false else lexLtN as bs

/-- Concatenation of a list of output fragments. -/
def strJoin : List String → String
  | [] => ""
  | s :: t => s ++ strJoin t

/-- The observable key/index structure of the registry map: each entry's
name together with its insertion index, in map order. -/
def keysIdx (m : List (String × Opt)) : List (String × Nat) :=
  m.map (fun p => (p.1, p.2.idx))

/-- A two-setting registry: check "Ponder" (default false) registered
first, spin "Threads" (default 4, bounds [1, 512]) second. -/
def demoRegistry : RegState :=
  registerOpt (registerOpt ⟨[], 0⟩ "Ponder" (optCheck false false))
    "Threads" (optSpin 4 1 512 true)

section Lemmas

/-- Evaluation fact: `stoi` on the empty string throws (no digits). -/
theorem stoi_empty : stoi "" = none := rfl

/-- A string accepted by `stoi` is non-empty. -/
theorem stoi_ne_empty {v : String} {n : Int} (hp : stoi v = some n) : v ≠ "" := by
  intro h
  rw [h, stoi_empty] at hp
  exact Option.noConfusion hp

/-- The Spin invariant does not look at the insertion index. -/
theorem spinInvB_setIdx (o : Opt) (j : Nat) :
    spinInvB { o with idx := j } = spinInvB o := rfl

end Lemmas

/-- C1: for a Spin cell, `assign` with a text that `stoi` parses to `n` with
`min ≤ n ≤ max` is accepted — `currentValue` becomes that text and a
subsequent read-as-integer returns `n` — while a text parsing to `n < min`
or `n > max` is rejected with the whole prior state unchanged. -/
theorem spin_assign_bounds (o : Opt) (v : String) (n : Int)
    (ht : o.type = "spin") (hp : stoi v = some n) :
    (o.min ≤ n → n ≤ o.max →
      assign o v = AssignResult.ok { o with currentValue := v } true o.hasOnChange ∧
      readInt { o with currentValue := v } = some n) ∧
    (n < o.min ∨ n > o.max → assign o v = AssignResult.ok o false false) := by
  have hv : v ≠ "" := stoi_ne_empty hp
  constructor
  · intro h1 h2
    have hn : ¬ (n < o.min ∨ n > o.max) := by omega
    constructor
    · simp [assign, ht, hv, hp, hn]
    · simp [readInt, ht, hp]
  · intro h
    simp [assign, ht, hv, hp, h]

/-- Witness for C1 at the "Hash"-shaped cell `optSpin 16 1 1024 true`:
`assign "512"` is accepted and reads back as 512; `assign "2000"` is
rejected unchanged. -/
theorem spin_assign_bounds_witness :
    ((optSpin 16 1 1024 true).type = "spin" ∧ stoi "512" = some 512 ∧
      stoi "2000" = some 2000) ∧
    (assign (optSpin 16 1 1024 true) "512" =
        AssignResult.ok { optSpin 16 1 1024 true with currentValue := "512" } true true ∧
      readInt { optSpin 16 1 1024 true with currentValue := "512" } = some 512) ∧
    assign (optSpin 16 1 1024 true) "2000" =
      AssignResult.ok (optSpin 16 1 1024 true) false false :=
  ⟨⟨rfl, rfl, rfl⟩,
   (spin_assign_bounds (optSpin 16 1 1024 true) "512" 512 rfl rfl).1
     (by decide) (by decide),
   (spin_assign_bounds (optSpin 16 1 1024 true) "2000" 2000 rfl rfl).2
     (Or.inr (by decide))⟩

/-- C2 counterexample: on a Spin cell, `assign "abc"` (non-empty text that
does not parse as an integer) does not return normally — `stoi` throws and
the exception propagates out of `operator=` (`AssignResult.exn`), contrary
to the claim of a silent normal return. -/
theorem spin_nonparse_throws :
    assign (optSpin 16 1 1024 true) "abc" = AssignResult.exn := by decide

/-- C2 (amended): on a Spin cell, an `assign` whose non-empty text does not
parse as an integer propagates the `stoi` exception out of the call: no
mutation and no callback occur, but the call does not return normally. -/
theorem spin_nonparse_exn (o : Opt) (v : String)
    (ht : o.type = "spin") (hv : v ≠ "") (hp : stoi v = none) :
    assign o v = AssignResult.exn := by
  simp [assign, ht, hv, hp]

/-- Witness for the amended C2 at a "Contempt"-shaped cell and text "xyz". -/
theorem spin_nonparse_exn_witness :
    ((optSpin 0 (-100) 100 false).type = "spin" ∧ "xyz" ≠ "" ∧ stoi "xyz" = none) ∧
    assign (optSpin 0 (-100) 100 false) "xyz" = AssignResult.exn :=
  ⟨⟨rfl, by decide, rfl⟩,
   spin_nonparse_exn (optSpin 0 (-100) 100 false) "xyz" rfl (by decide) rfl⟩

/-- C3 counterexample: a Spin cell with a callback whose `currentValue` is
"16" accepts `assign "16"`; the stored value does not change, yet the
callback is invoked (`fired = true`), contrary to the claim that the
callback fires exactly when the stored value actually changes. -/
theorem callback_fires_without_change :
    (optSpin 16 1 1024 true).currentValue = "16" ∧
    assign (optSpin 16 1 1024 true) "16" =
      AssignResult.ok (optSpin 16 1 1024 true) true true := by decide

/-- C3 (amended): the callback is invoked exactly when the assignment is
accepted and a callback is bound, regardless of whether the stored value
actually changes; in particular a rejected assignment never invokes it. -/
theorem callback_iff_accepted (o : Opt) (v : String) (st : Opt) (a f : Bool)
    (h : assign o v = AssignResult.ok st a f) :
    f = (a && o.hasOnChange) := by
  unfold assign at h
  split at h
  · cases h; simp
  · split at h
    · cases h; simp
    · split at h
      · split at h
        · exact AssignResult.noConfusion h
        · split at h
          · cases h; simp
          · cases h; simp
      · cases h; simp

/-- Witness for the amended C3: an accepted assignment on a callback-bearing
Spin cell fires the callback. -/
theorem callback_iff_accepted_witness :
    (assign (optSpin 16 1 1024 true) "512" =
      AssignResult.ok { optSpin 16 1 1024 true with currentValue := "512" } true true) ∧
    true = (true && (optSpin 16 1 1024 true).hasOnChange) :=
  ⟨rfl,
   callback_iff_accepted (optSpin 16 1 1024 true) "512"
     { optSpin 16 1 1024 true with currentValue := "512" } true true rfl⟩

/-- C6: a check ("Toggle") cell accepts exactly the texts "true" and
"false"; any other text (including the empty text) is rejected with the
whole state unchanged and no callback invoked. -/
theorem check_assign_texts (o : Opt) (ht : o.type = "check") :
    assign o "true" = AssignResult.ok { o with currentValue := "true" } true o.hasOnChange ∧
    assign o "false" = AssignResult.ok { o with currentValue := "false" } true o.hasOnChange ∧
    ∀ v : String, v ≠ "true" → v ≠ "false" →
      assign o v = AssignResult.ok o false false := by
  refine ⟨by simp [assign, ht], by simp [assign, ht], ?_⟩
  intro v h1 h2
  by_cases hv : v = ""
  · subst hv; simp [assign, ht]
  · simp [assign, ht, hv, h1, h2]

/-- Witness for C6 at a "Ponder"-shaped cell: "true" flips the value,
"maybe" and "" are rejected unchanged. -/
theorem check_assign_texts_witness :
    (optCheck false false).type = "check" ∧
    (assign (optCheck false false) "true" =
        AssignResult.ok { optCheck false false with currentValue := "true" } true false ∧
      assign (optCheck false false) "maybe" =
        AssignResult.ok (optCheck false false) false false ∧
      assign (optCheck false false) "" =
        AssignResult.ok (optCheck false false) false false) :=
  ⟨rfl,
   (check_assign_texts (optCheck false false) rfl).1,
   (check_assign_texts (optCheck false false) rfl).2.2 "maybe" (by decide) (by decide),
   (check_assign_texts (optCheck false false) rfl).2.2 "" (by decide) (by decide)⟩

/-- C7: a button cell with a bound callback accepts every `assign` call —
any text, including the empty one — leaving the state unchanged and
invoking the callback exactly once per call. -/
theorem button_assign_fires (o : Opt) (v : String)
    (ht : o.type = "button") (hf : o.hasOnChange = true) :
    assign o v = AssignResult.ok o true true := by
  simp [assign, ht, hf]

/-- Witness for C7: the "Clear Hash"-shaped button fires on the empty text
and on an arbitrary text. -/
theorem button_assign_fires_witness :
    ((optButton true).type = "button" ∧ (optButton true).hasOnChange = true) ∧
    assign (optButton true) "" = AssignResult.ok (optButton true) true true ∧
    assign (optButton true) "anything" = AssignResult.ok (optButton true) true true :=
  ⟨⟨rfl, rfl⟩, button_assign_fires (optButton true) "" rfl rfl,
   button_assign_fires (optButton true) "anything" rfl rfl⟩

/-- C10: an accepted Spin assignment is decided by the integer parsed from
the text's leading numeric prefix and stores the supplied text verbatim
(not the canonical decimal form); in particular "007" parses to 7 and
"12abc" parses to 12, neither being the canonical rendering. -/
theorem spin_assign_verbatim (o : Opt) (v : String) (k : Int)
    (ht : o.type = "spin") (hp : stoi v = some k)
    (h1 : o.min ≤ k) (h2 : k ≤ o.max) :
    assign o v = AssignResult.ok { o with currentValue := v } true o.hasOnChange ∧
    stoi "007" = some 7 ∧ stoi "12abc" = some 12 ∧
    toString (7 : Int) ≠ "007" ∧ toString (12 : Int) ≠ "12abc" := by
  have hv : v ≠ "" := stoi_ne_empty hp
  have hn : ¬ (k < o.min ∨ k > o.max) := by omega
  exact ⟨by simp [assign, ht, hv, hp, hn], rfl, rfl, by decide, by decide⟩

/-- Witness for C10: "007" and "12abc" are both accepted by a
"Hash"-shaped cell and stored exactly as given. -/
theorem spin_assign_verbatim_witness :
    ((optSpin 16 1 1024 true).type = "spin" ∧ stoi "007" = some 7 ∧
      stoi "12abc" = some 12) ∧
    assign (optSpin 16 1 1024 true) "007" =
      AssignResult.ok { optSpin 16 1 1024 true with currentValue := "007" } true true ∧
    assign (optSpin 16 1 1024 true) "12abc" =
      AssignResult.ok { optSpin 16 1 1024 true with currentValue := "12abc" } true true :=
  ⟨⟨rfl, rfl, rfl⟩,
   (spin_assign_verbatim (optSpin 16 1 1024 true) "007" 7 rfl rfl
      (by decide) (by decide)).1,
   (spin_assign_verbatim (optSpin 16 1 1024 true) "12abc" 12 rfl rfl
      (by decide) (by decide)).1⟩

set_option maxRecDepth 8000

/-- Every entry of `mapInsert m k v` carries either the newly inserted value
or a value already present in `m`. -/
theorem mem_mapInsert (m : List (String × Opt)) (k : String) (v : Opt)
    (p : String × Opt) (h : p ∈ mapInsert m k v) : p.2 = v ∨ p ∈ m := by
  induction m with
  | nil =>
    simp [mapInsert] at h
    left; rw [h]
  | cons q t ih =>
    obtain ⟨k0, v0⟩ := q
    rw [mapInsert] at h
    split at h
    · rcases List.mem_cons.mp h with h1 | h2
      · left; rw [h1]
      · right; exact h2
    · split at h
      · rcases List.mem_cons.mp h with h1 | h2
        · right; rw [h1]; exact List.mem_cons_self _ _
        · rcases ih h2 with h3 | h4
          · left; exact h3
          · right; exact List.mem_cons_of_mem _ h4
      · rcases List.mem_cons.mp h with h1 | h2
        · left; rw [h1]
        · right; exact List.mem_cons_of_mem _ h2

/-- Every map entry produced by folding the catalog through `registerOpt`
carries a catalog value (up to the stamped insertion index) or an entry of
the starting registry. -/
theorem mem_registry_fold (entries : List (String × Opt)) :
    ∀ (st : RegState) (p : String × Opt),
      p ∈ (entries.foldl (fun s q => registerOpt s q.1 q.2) st).m →
      (∃ q ∈ entries, ∃ j, p.2 = { q.2 with idx := j }) ∨ p ∈ st.m := by
  induction entries with
  | nil => intro st p h; right; exact h
  | cons e t ih =>
    intro st p h
    rw [List.foldl_cons] at h
    rcases ih (registerOpt st e.1 e.2) p h with ⟨q, hq, j, hj⟩ | hmem
    · exact Or.inl ⟨q, List.mem_cons_of_mem _ hq, j, hj⟩
    · rcases mem_mapInsert st.m e.1 { e.2 with idx := st.counter } p hmem with h2 | h3
      · exact Or.inl ⟨e, List.mem_cons_self _ _, st.counter, h2⟩
      · exact Or.inr h3

/-- The Spin invariant holds for a Threads-shaped cell for every worker
count between 1 and 512. -/
theorem spin_threads_inv :
    ∀ k : Nat, k ≤ 512 → 1 ≤ k →
      spinInvB (optSpin (Int.ofNat k) 1 512 true) = true := by decide

/-- Every literal catalog entry satisfies the Spin invariant, provided the
hardware-concurrency input does not exceed 512. -/
theorem catalog_entries_inv (hw : Nat) (is64 : Bool) (hhw : hw ≤ 512) :
    ∀ q ∈ catalogEntries hw is64, spinInvB q.2 = true := by
  intro q hq
  simp only [catalogEntries, List.mem_cons, List.not_mem_nil, or_false] at hq
  rcases hq with rfl|rfl|rfl|rfl|rfl|rfl|rfl|rfl|rfl|rfl|rfl|rfl|rfl|rfl|rfl|rfl|rfl|rfl|rfl|rfl|rfl|rfl|rfl|rfl|rfl|rfl|rfl|rfl|rfl|rfl|rfl|rfl|rfl|rfl|rfl|rfl|rfl|rfl|rfl|rfl|rfl
  all_goals first
    | decide
    | (cases is64 <;> decide)
    | (refine spin_threads_inv _ ?_ ?_ <;> split <;> omega)

/-- A normally returning `assign` preserves the Spin invariant. -/
theorem assign_preserves_spinInv (o : Opt) (v : String) (st : Opt) (a f : Bool)
    (h : assign o v = AssignResult.ok st a f) (hinv : spinInvB o = true) :
    spinInvB st = true := by
  unfold assign at h
  split at h
  · cases h; exact hinv
  · split at h
    · cases h; exact hinv
    · split at h
      · rename_i hns hspin
        split at h
        · exact AssignResult.noConfusion h
        · rename_i i hi
          split at h
          · cases h; exact hinv
          · rename_i hrange
            cases h
            simp [spinInvB, hspin, hi]
            omega
      · rename_i hn1 hn2 hns
        cases h
        have htype : (if o.type ≠ "button" then { o with currentValue := v } else o).type
            = o.type := by split <;> rfl
        simp only [spinInvB, htype]
        simp [hns]

/-- C4 counterexample: with a hardware-concurrency count of 1024 the
catalog's "Threads" cell is constructed with `currentValue` "1024" and
bounds `[1, 512]`, violating the Spin invariant `min ≤ parse(current) ≤
max` — the initializer does not clamp the environment-derived default. -/
theorem threads_invariant_violated :
    (mapFind (initRegistry 1024 true).m "Threads").map spinInvB = some false := by
  decide

/-- C4 (amended): provided the hardware-concurrency count is at most 512,
every cell of the freshly initialized catalog satisfies the Spin invariant
(`min ≤ max` and `min ≤ parse(currentValue) ≤ max` for spin cells), and
every normally returning `assign` preserves that invariant. -/
theorem spin_invariant (hw : Nat) (is64 : Bool) (hhw : hw ≤ 512) :
    (∀ p ∈ (initRegistry hw is64).m, spinInvB p.2 = true) ∧
    (∀ o v st a f, assign o v = AssignResult.ok st a f →
      spinInvB o = true → spinInvB st = true) := by
  constructor
  · intro p hp
    rcases mem_registry_fold (catalogEntries hw is64) ⟨[], 0⟩ p hp with ⟨q, hq, j, hj⟩ | h
    · rw [hj, spinInvB_setIdx]
      exact catalog_entries_inv hw is64 hhw q hq
    · simp at h
  · intro o v st a f h hinv
    exact assign_preserves_spinInv o v st a f h hinv

/-- Witness for the amended C4 at a machine reporting 4 hardware threads on
a 64-bit build. -/
theorem spin_invariant_witness :
    4 ≤ 512 ∧
    ((∀ p ∈ (initRegistry 4 true).m, spinInvB p.2 = true) ∧
     (∀ o v st a f, assign o v = AssignResult.ok st a f →
        spinInvB o = true → spinInvB st = true)) :=
  ⟨by decide, spin_invariant 4 true (by decide)⟩

/-- Inserting equally named, equally indexed values into maps with the same
key/index structure yields the same key/index structure: `mapInsert`
branches only on keys. -/
theorem keysIdx_mapInsert_congr :
    ∀ (m m' : List (String × Opt)), keysIdx m = keysIdx m' →
    ∀ (k : String) (v v' : Opt), v.idx = v'.idx →
    keysIdx (mapInsert m k v) = keysIdx (mapInsert m' k v') := by
  intro m
  induction m with
  | nil =>
    intro m' h k v v' hv
    have hm : m' = [] := by
      cases m' with
      | nil => rfl
      | cons q t => simp [keysIdx] at h
    subst hm
    simp [keysIdx, mapInsert, hv]
  | cons q t ih =>
    intro m' h k v v' hv
    obtain ⟨k0, v0⟩ := q
    cases m' with
    | nil => simp [keysIdx] at h
    | cons q' t' =>
      obtain ⟨k0', v0'⟩ := q'
      simp only [keysIdx, List.map_cons, List.cons.injEq, Prod.mk.injEq] at h
      obtain ⟨⟨hk, hidx⟩, ht⟩ := h
      subst hk
      by_cases h1 : cilLess k k0 = true
      · simp [mapInsert, h1, keysIdx, hv, hidx, ht]
      · by_cases h2 : cilLess k0 k = true
        · simp only [mapInsert, h1, h2, if_true, if_false]
          simp [keysIdx, hidx]
          exact ih t' ht k v v' hv
        · simp [mapInsert, h1, h2, keysIdx, hv, hidx, ht]

/-- Folding equally named catalogs through `registerOpt` from states with
the same key/index structure and the same counter yields the same key/index
structure and the same counter. -/
theorem keysIdx_fold_congr :
    ∀ (es es' : List (String × Opt)), es.map Prod.fst = es'.map Prod.fst →
    ∀ (st st' : RegState), keysIdx st.m = keysIdx st'.m → st.counter = st'.counter →
    keysIdx ((es.foldl (fun s q => registerOpt s q.1 q.2) st).m) =
      keysIdx ((es'.foldl (fun s q => registerOpt s q.1 q.2) st').m) ∧
    (es.foldl (fun s q => registerOpt s q.1 q.2) st).counter =
      (es'.foldl (fun s q => registerOpt s q.1 q.2) st').counter := by
  intro es
  induction es with
  | nil =>
    intro es' h st st' hm hc
    have hes : es' = [] := by cases es' <;> simp_all
    subst hes
    exact ⟨hm, hc⟩
  | cons e t ih =>
    intro es' h st st' hm hc
    cases es' with
    | nil => simp at h
    | cons e' t' =>
      simp only [List.map_cons, List.cons.injEq] at h
      obtain ⟨hk, ht⟩ := h
      rw [List.foldl_cons, List.foldl_cons]
      apply ih t' ht
      · show keysIdx (mapInsert st.m e.1 { e.2 with idx := st.counter }) =
          keysIdx (mapInsert st'.m e'.1 { e'.2 with idx := st'.counter })
        rw [← hk]
        exact keysIdx_mapInsert_congr st.m st'.m hm e.1 _ _ (by simp [hc])
      · simp [registerOpt, hc]

/-- C5: after `UCI::init` populates a fresh registry (static counter 0),
the insertion indices of its cells are exactly the contiguous range
[0, 40] for the 41 catalog settings, assigned in literal catalog order —
"Tactical Mode" gets 0 and "SyzygyProbeLimit" gets 40 — for every
environment (`hw`, `is64`).  The first conjunct pins the full name/index
association (in map order); the second checks each catalog name in literal
order against its position. -/
theorem catalog_idx_contiguous (hw : Nat) (is64 : Bool) :
    keysIdx (initRegistry hw is64).m =
      [("Clear Hash", 5), ("Contempt", 2), ("Debug Log File", 1), ("Futility", 23),
       ("Hash", 4), ("Imbalance(eg)", 10), ("Imbalance(mg)", 9), ("KingSafety(eg)", 18),
       ("KingSafety(mg)", 17), ("Large Pages", 33), ("LMR", 27), ("Material(eg)", 8),
       ("Material(mg)", 7), ("MaxLMR", 28), ("Minimum Thinking Time", 32),
       ("Mobility(eg)", 14), ("Mobility(mg)", 13), ("Move Overhead", 31),
       ("MultiPV", 29), ("nodestime", 35), ("NullMove", 24), ("PassedPawns(eg)", 16),
       ("PassedPawns(mg)", 15), ("PawnStructure(eg)", 12), ("PawnStructure(mg)", 11),
       ("Ponder", 6), ("ProbCut", 25), ("Pruning", 26), ("Razoring", 22),
       ("Skill Level", 30), ("Slow Mover", 34), ("Space", 21),
       ("Syzygy50MoveRule", 39), ("SyzygyPath", 37), ("SyzygyProbeDepth", 38),
       ("SyzygyProbeLimit", 40), ("Tactical Mode", 0), ("Threads", 3),
       ("Threats(eg)", 20), ("Threats(mg)", 19), ("UCI_Chess960", 36)] ∧
    (catalogNames.zip (List.range 41)).all
      (fun pr => decide (pr ∈ keysIdx (initRegistry hw is64).m)) = true := by
  have hnames : (catalogEntries hw is64).map Prod.fst =
      (catalogEntries 1 true).map Prod.fst := by
    simp [catalogEntries]
  have h0 := keysIdx_fold_congr (catalogEntries hw is64) (catalogEntries 1 true)
    hnames ⟨[], 0⟩ ⟨[], 0⟩ rfl rfl
  have h1 : keysIdx (initRegistry hw is64).m = keysIdx (initRegistry 1 true).m := h0.1
  have h2 : keysIdx (initRegistry 1 true).m =
      [("Clear Hash", 5), ("Contempt", 2), ("Debug Log File", 1), ("Futility", 23),
       ("Hash", 4), ("Imbalance(eg)", 10), ("Imbalance(mg)", 9), ("KingSafety(eg)", 18),
       ("KingSafety(mg)", 17), ("Large Pages", 33), ("LMR", 27), ("Material(eg)", 8),
       ("Material(mg)", 7), ("MaxLMR", 28), ("Minimum Thinking Time", 32),
       ("Mobility(eg)", 14), ("Mobility(mg)", 13), ("Move Overhead", 31),
       ("MultiPV", 29), ("nodestime", 35), ("NullMove", 24), ("PassedPawns(eg)", 16),
       ("PassedPawns(mg)", 15), ("PawnStructure(eg)", 12), ("PawnStructure(mg)", 11),
       ("Ponder", 6), ("ProbCut", 25), ("Pruning", 26), ("Razoring", 22),
       ("Skill Level", 30), ("Slow Mover", 34), ("Space", 21),
       ("Syzygy50MoveRule", 39), ("SyzygyPath", 37), ("SyzygyProbeDepth", 38),
       ("SyzygyProbeLimit", 40), ("Tactical Mode", 0), ("Threads", 3),
       ("Threats(eg)", 20), ("Threats(mg)", 19), ("UCI_Chess960", 36)] := by decide
  refine ⟨by rw [h1, h2], ?_⟩
  rw [h1, h2]
  decide

/-- The source's lexicographic comparison with per-character `tolower`
equals the plain lexicographic comparison of the lower-cased byte lists. -/
theorem lexCmp_tol_eq_lexLtN :
    ∀ (l1 l2 : List Char),
      lexCmp (fun c1 c2 => tol c1 < tol c2) l1 l2 =
        lexLtN (l1.map tol) (l2.map tol) := by
  intro l1
  induction l1 with
  | nil => intro l2; cases l2 <;> simp [lexCmp, lexLtN]
  | cons a as ih =>
    intro l2
    cases l2 with
    | nil => simp [lexCmp, lexLtN]
    | cons b bs =>
      simp only [lexCmp, lexLtN, List.map_cons]
      by_cases h1 : tol a < tol b
      · simp [h1]
      · by_cases h2 : tol b < tol a
        · simp [h1, h2]
        · simp [h1, h2, ih]

/-- The comparator `CaseInsensitiveLess` depends only on the lower-cased byte lists. -/
theorem cilLess_eq_lexLtN (s1 s2 : String) :
    cilLess s1 s2 = lexLtN (s1.data.map tol) (s2.data.map tol) :=
  lexCmp_tol_eq_lexLtN s1.data s2.data

/-- Registry lookup resolves two names that agree after ASCII lower-casing
to the same result, on any map. -/
theorem mapFind_tol_congr (m : List (String × Opt)) (s1 s2 : String)
    (h : s1.data.map tol = s2.data.map tol) :
    mapFind m s1 = mapFind m s2 := by
  induction m with
  | nil => rfl
  | cons q t ih =>
    obtain ⟨k, v⟩ := q
    have he : cilEquiv s1 k = cilEquiv s2 k := by
      simp [cilEquiv, cilLess_eq_lexLtN, h]
    rw [mapFind, mapFind, he]
    by_cases hc : cilEquiv s2 k = true
    · simp [hc]
    · simp [hc, ih]

/-- C8: two names equal after ASCII lower-casing of each character resolve
to the same cell under registry lookup, for every map; in particular, on
the freshly initialized catalog, "Hash", "hash" and "HASH" all resolve to
the same (present) cell. -/
theorem lookup_case_insensitive (m : List (String × Opt)) (s1 s2 : String)
    (h : s1.data.map tol = s2.data.map tol) :
    mapFind m s1 = mapFind m s2 ∧
    (mapFind (initRegistry 1 true).m "Hash" = mapFind (initRegistry 1 true).m "hash" ∧
     mapFind (initRegistry 1 true).m "hash" = mapFind (initRegistry 1 true).m "HASH" ∧
     (mapFind (initRegistry 1 true).m "Hash").isSome = true) :=
  ⟨mapFind_tol_congr m s1 s2 h,
   mapFind_tol_congr _ "Hash" "hash" (by decide),
   mapFind_tol_congr _ "hash" "HASH" (by decide),
   by decide⟩

/-- Witness for C8 at the concrete pair "Hash" / "HASH" on the freshly
initialized catalog. -/
theorem lookup_case_insensitive_witness :
    ("Hash".data.map tol = "HASH".data.map tol) ∧
    (mapFind (initRegistry 1 true).m "Hash" = mapFind (initRegistry 1 true).m "HASH" ∧
     (mapFind (initRegistry 1 true).m "Hash" = mapFind (initRegistry 1 true).m "hash" ∧
      mapFind (initRegistry 1 true).m "hash" = mapFind (initRegistry 1 true).m "HASH" ∧
      (mapFind (initRegistry 1 true).m "Hash").isSome = true)) :=
  ⟨by decide, lookup_case_insensitive (initRegistry 1 true).m "Hash" "HASH" (by decide)⟩

/-- The printer's fold, started from any accumulated output, appends the
lines of the entries found for each index in turn. -/
theorem printFold_eq (m : List (String × Opt)) :
    ∀ (js : List Nat) (acc : String),
      js.foldl (fun acc j =>
        match findByIdx m j with
        | some p => acc ++ optLine p.1 p.2
        | none => acc) acc
      = acc ++ strJoin ((js.filterMap (findByIdx m)).map (fun p => optLine p.1 p.2)) := by
  intro js
  induction js with
  | nil => intro acc; simp [strJoin]
  | cons j t ih =>
    intro acc
    rw [List.foldl_cons]
    cases hf : findByIdx m j with
    | none =>
      simp only [hf, List.filterMap_cons_none hf]
      exact ih acc
    | some p =>
      simp only [hf, List.filterMap_cons_some hf, List.map_cons]
      rw [ih, strJoin, String.append_assoc]

/-- The printer `printOptions` emits exactly the lines of the entries found for
indices `0, …, size-1`, in that order. -/
theorem printOptions_eq_strJoin (m : List (String × Opt)) :
    printOptions m =
      strJoin (((List.range m.length).filterMap (findByIdx m)).map
        (fun p => optLine p.1 p.2)) := by
  unfold printOptions
  rw [printFold_eq, String.empty_append]

/-- When every index in `js` is found, the entries selected by
`filterMap (findByIdx m)` carry exactly the indices `js`, in order. -/
theorem filterMap_findByIdx_map_idx (m : List (String × Opt)) :
    ∀ (js : List Nat), (∀ j ∈ js, (findByIdx m j).isSome = true) →
      ((js.filterMap (findByIdx m)).map (fun p => p.2.idx)) = js := by
  intro js
  induction js with
  | nil => intro _; simp
  | cons j t ih =>
    intro hall
    obtain ⟨p, hp⟩ := Option.isSome_iff_exists.mp (hall j (List.mem_cons_self _ _))
    have hidx : p.2.idx = j := by
      have h2 := List.find?_some hp
      simpa using h2
    rw [List.filterMap_cons_some hp, List.map_cons, hidx,
      ih (fun x hx => hall x (List.mem_cons_of_mem _ hx))]

/-- Entries selected by the printer all come from the registry. -/
theorem filterMap_findByIdx_subset (m : List (String × Opt)) (js : List Nat) :
    ∀ p ∈ js.filterMap (findByIdx m), p ∈ m := by
  intro p hp
  rcases List.mem_filterMap.mp hp with ⟨j, _, hj⟩
  exact List.mem_of_find?_eq_some hj

/-- C9: when the registry's insertion indices are exactly a permutation of
`0, …, size-1` (as every freshly built catalog's are), printing emits
exactly one line per setting — the printed text is the concatenation, in
ascending insertion-index order, of the per-setting lines `optLine`
("option name <name> type <kind>", then " default <default>" for non-button
kinds, then " min <min> max <max>" for spin) — and, concretely, the
two-setting registry of check "Ponder" then spin "Threads" prints its two
lines in insertion order with bounds only on the spin line. -/
theorem printer_insertion_order (m : List (String × Opt))
    (h : (m.map (fun p => p.2.idx)).Perm (List.range m.length)) :
    (∃ L : List (String × Opt),
      printOptions m = strJoin (L.map (fun p => optLine p.1 p.2)) ∧
      L.Perm m ∧
      L.map (fun p => p.2.idx) = List.range m.length) ∧
    printOptions demoRegistry.m =
      "\noption name Ponder type check default false" ++
      "\noption name Threads type spin default 4 min 1 max 512" := by
  have hall : ∀ j ∈ List.range m.length, (findByIdx m j).isSome = true := by
    intro j hj
    have hj2 : j ∈ m.map (fun p => p.2.idx) := h.mem_iff.mpr hj
    rcases List.mem_map.mp hj2 with ⟨p, hp, hpe⟩
    have hex : ∃ x, x ∈ m ∧ ((fun q : String × Opt => q.2.idx == j) x) = true :=
      ⟨p, hp, by simp [hpe]⟩
    simpa [findByIdx] using List.find?_isSome.mpr hex
  have hmap : (((List.range m.length).filterMap (findByIdx m)).map
      (fun p => p.2.idx)) = List.range m.length :=
    filterMap_findByIdx_map_idx m _ hall
  have hnodL : ((List.range m.length).filterMap (findByIdx m)).Nodup :=
    List.Nodup.of_map _ (by rw [hmap]; exact List.nodup_range _)
  have hlen : ((List.range m.length).filterMap (findByIdx m)).length = m.length := by
    have hc := congrArg List.length hmap
    simpa using hc
  have hperm : ((List.range m.length).filterMap (findByIdx m)).Perm m :=
    (hnodL.subperm (fun {p} hp => filterMap_findByIdx_subset m _ p hp)).perm_of_length_le
      (by omega)
  exact ⟨⟨_, printOptions_eq_strJoin m, hperm, hmap⟩, by decide⟩

/-- Witness for C9 on the two-setting "Ponder"/"Threads" registry. -/
theorem printer_insertion_order_witness :
    ((demoRegistry.m.map (fun p => p.2.idx)).Perm (List.range demoRegistry.m.length)) ∧
    ((∃ L : List (String × Opt),
      printOptions demoRegistry.m = strJoin (L.map (fun p => optLine p.1 p.2)) ∧
      L.Perm demoRegistry.m ∧
      L.map (fun p => p.2.idx) = List.range demoRegistry.m.length) ∧
    printOptions demoRegistry.m =
      "\noption name Ponder type check default false" ++
      "\noption name Threads type spin default 4 min 1 max 512") :=
  ⟨by decide, printer_insertion_order demoRegistry.m (by decide)⟩
